import Mathlib

/-!
# x86 hardware access primitives (include/x86funcs.h)

A shallow embedding of the one-instruction wrappers of `include/x86funcs.h`.
Machine integers are natural numbers reduced modulo `2 ^ w` at the places where
the C code fixes a width (`uint8_t`, `uint16_t`, `uint32_t`, `uint64_t`).
The processor state touched by the wrappers is passed explicitly.
-/

namespace X86Funcs

/-! ## Machine words -/

/-- Value of a C expression converted to `uint8_t`. -/
def u8 (v : Nat) : Nat := v % 2 ^ 8

/-- Value of a C expression converted to `uint16_t`. -/
def u16 (v : Nat) : Nat := v % 2 ^ 16

/-- Value of a C expression converted to `uint32_t`. -/
def u32 (v : Nat) : Nat := v % 2 ^ 32

/-- Value of a C expression converted to `uint64_t`. -/
def u64 (v : Nat) : Nat := v % 2 ^ 64

/-! ## The CPUID result buffer -/

/-- Modelled from the spec: the declaration of `struct cpuid_result` (header
`x86defs.h`) is not among the sources. The spec's data model describes it as a
record of four 32-bit fields `regs.eax`, `regs.ebx`, `regs.ecx`, `regs.edx`
(in this order) aliased with a raw byte view `bytes` of capacity 33. The
storage of the union is represented by its byte view; the four fields are the
little-endian 32-bit words at byte offsets 0, 4, 8 and 12. -/
structure cpuid_result where
  bytes : List Nat
deriving DecidableEq, Repr

/-- Capacity of the byte view `u.bytes` of `struct cpuid_result`. -/
def cpuid_result_size : Nat := 33

/-- Byte offset of `u.regs.eax` inside the union. -/
def off_eax : Nat := 0

/-- Byte offset of `u.regs.ebx` inside the union. -/
def off_ebx : Nat := 4

/-- Byte offset of `u.regs.ecx` inside the union. -/
def off_ecx : Nat := 8

/-- Byte offset of `u.regs.edx` inside the union. -/
def off_edx : Nat := 12

/-- The `k`-th byte (least significant first) of a 32-bit word. -/
def leByte (v k : Nat) : Nat := v / 256 ^ k % 256

/-- The four bytes of a 32-bit word in memory order (x86 is little-endian). -/
def le32 (v : Nat) : List Nat := [leByte v 0, leByte v 1, leByte v 2, leByte v 3]

/-- Store of a `uint32_t` at byte offset `off` of a byte buffer. -/
def store32 (mem : List Nat) (off v : Nat) : List Nat :=
  (((mem.set off (leByte v 0)).set (off + 1) (leByte v 1)).set (off + 2) (leByte v 2)).set
    (off + 3) (leByte v 3)

/-- Load of a `uint32_t` from byte offset `off` of a byte buffer. -/
def load32 (mem : List Nat) (off : Nat) : Nat :=
  mem.getD off 0 + 256 * mem.getD (off + 1) 0 + 256 ^ 2 * mem.getD (off + 2) 0
    + 256 ^ 3 * mem.getD (off + 3) 0

/-- Read of `result->u.regs.eax`. -/
def cpuid_result.regs_eax (r : cpuid_result) : Nat := load32 r.bytes off_eax

/-- Read of `result->u.regs.ebx`. -/
def cpuid_result.regs_ebx (r : cpuid_result) : Nat := load32 r.bytes off_ebx

/-- Read of `result->u.regs.ecx`. -/
def cpuid_result.regs_ecx (r : cpuid_result) : Nat := load32 r.bytes off_ecx

/-- Read of `result->u.regs.edx`. -/
def cpuid_result.regs_edx (r : cpuid_result) : Nat := load32 r.bytes off_edx

/-- Assignment `result->u.regs.eax = v`. -/
def cpuid_result.set_eax (r : cpuid_result) (v : Nat) : cpuid_result :=
  ⟨store32 r.bytes off_eax (u32 v)⟩

/-- Assignment `result->u.regs.ebx = v`. -/
def cpuid_result.set_ebx (r : cpuid_result) (v : Nat) : cpuid_result :=
  ⟨store32 r.bytes off_ebx (u32 v)⟩

/-- Assignment `result->u.regs.ecx = v`. -/
def cpuid_result.set_ecx (r : cpuid_result) (v : Nat) : cpuid_result :=
  ⟨store32 r.bytes off_ecx (u32 v)⟩

/-- Assignment `result->u.regs.edx = v`. -/
def cpuid_result.set_edx (r : cpuid_result) (v : Nat) : cpuid_result :=
  ⟨store32 r.bytes off_edx (u32 v)⟩

/-- Assignment `result->u.bytes[i] = c`. -/
def cpuid_result.set_byte (r : cpuid_result) (i c : Nat) : cpuid_result :=
  ⟨r.bytes.set i (u8 c)⟩

/-- Read of `result->u.bytes[i]`. -/
def cpuid_result.byte (r : cpuid_result) (i : Nat) : Nat := r.bytes.getD i 0

/-! ## The CPUID instruction -/

/-- The four output registers of one execution of the `cpuid` instruction. -/
structure CpuidOut where
  eax : Nat
  ebx : Nat
  ecx : Nat
  edx : Nat
deriving DecidableEq, Repr

/-- The output registers hold 32-bit values. -/
def CpuidOut.wf (o : CpuidOut) : Prop :=
  o.eax < 2 ^ 32 ∧ o.ebx < 2 ^ 32 ∧ o.ecx < 2 ^ 32 ∧ o.edx < 2 ^ 32

instance (o : CpuidOut) : Decidable o.wf :=
  inferInstanceAs (Decidable (o.eax < 2 ^ 32 ∧ o.ebx < 2 ^ 32 ∧ o.ecx < 2 ^ 32 ∧ o.edx < 2 ^ 32))

/-- The routine `cpuid(function, result)`. The processor's `cpuid` instruction is
the parameter `insn`, mapping the leaf placed in `eax` to the four raw output
registers. The value is the result structure after the call; the pointer the
C routine returns is the address of its byte view `result->u.bytes`. -/
def cpuid (insn : Nat → CpuidOut) (function : Nat) (result : cpuid_result) : cpuid_result :=
  let function := u32 function
  let out := insn function
  let eax := u32 out.eax
  let ebx := u32 out.ebx
  let ecx := u32 out.ecx
  let edx := u32 out.edx
  let result := result.set_eax eax
  let result := result.set_ebx ebx
  let result :=
    if function = 0 then
      (result.set_ecx edx).set_edx ecx
    else
      (result.set_ecx ecx).set_edx edx
  result.set_byte 32 0

/-- A `cpuid` instruction answering leaf 0 the way an Intel part does: highest
basic leaf in `eax`, the vendor string "GenuineIntel" spread over `ebx`, `edx`,
`ecx`; every other leaf answers with four distinct register values. -/
def genuineIntel (leaf : Nat) : CpuidOut :=
  if leaf = 0 then ⟨0x0d, 0x756e6547, 0x6c65746e, 0x49656e69⟩
  else ⟨0x000306a9, 0x00100800, 0x7fbae3ff, 0xbfebfbff⟩

/-- A result buffer of 33 bytes whose every byte holds `c` before the call. -/
def filled (c : Nat) : cpuid_result := ⟨List.replicate 33 c⟩

/-! ## Processor state: interrupt flag and control registers -/

/-- The processor state the flag and control-register wrappers act on: the
interrupt flag `RFLAGS.IF` and the registers `CR2` and `CR3`. -/
structure CPU where
  IF : Bool
  cr2 : Nat
  cr3 : Nat
deriving DecidableEq, Repr

/-- The routine `cli()`: the instruction `cli` clears the interrupt flag. -/
def cli (s : CPU) : CPU := { s with IF := false }

/-- The routine `sti()`: the instruction `sti` sets the interrupt flag. -/
def sti (s : CPU) : CPU := { s with IF := true }

/-- The routine `getCR2()`: `mov %cr2, reg`; the value read and the state after. -/
def getCR2 (s : CPU) : Nat × CPU := (u64 s.cr2, s)

/-- The routine `getCR3()`: `mov %cr3, reg` into a `uint64_t`; the value read and
the state after the read. -/
def getCR3 (s : CPU) : Nat × CPU := (u64 s.cr3, s)

/-- What the processor knows about page-table roots: the width `maxphyaddr` of
a physical address (the bits of CR3 from `maxphyaddr` up to bit 63 are
reserved), and for each value whether the tables rooted there translate the
code that is running. -/
structure Paging where
  maxphyaddr : Nat
  mapped : Nat → Bool

/-- A value the processor accepts as a page-table root under which execution
goes on: no reserved bit is set and the tables rooted there are in place. -/
def validRoot (env : Paging) (value : Nat) : Bool :=
  decide (value < 2 ^ env.maxphyaddr) && env.mapped value

/-- The exceptions a load of CR3 can end in. -/
inductive Fault where
  | generalProtection
  | translation
deriving DecidableEq, Repr

/-- How a privileged instruction ends: it completes and execution continues with
the next instruction in state `s`, or it raises an exception and control leaves
the instruction stream in state `s`. -/
inductive Outcome where
  | done (s : CPU)
  | fault (f : Fault) (s : CPU)
deriving DecidableEq, Repr

/-- The routine `setCR3(value)`: `mov reg, %cr3` from a `uint64_t` operand; the
wrapper passes the operand on unchanged. A value with a reserved bit set raises
a general-protection exception and CR3 keeps its content. Any other value is
loaded; when no tables are in place behind it the fetch of the next instruction
fails to translate and the instruction after `setCR3` is not reached. -/
def setCR3 (env : Paging) (s : CPU) (value : Nat) : Outcome :=
  let value := u64 value
  if value < 2 ^ env.maxphyaddr then
    if env.mapped value then
      .done { s with cr3 := value }
    else
      .fault .translation { s with cr3 := value }
  else
    .fault .generalProtection s

/-- A processor with 52 physical address bits on which page tables are in place
at the two roots `0x1000` and `0x2000`. -/
def twoRoots : Paging where
  maxphyaddr := 52
  mapped v := v == 0x1000 || v == 0x2000

/-! ## Halting -/

/-- What arrives at the processor while it executes one step: nothing, a
maskable external interrupt request, or a non-maskable interrupt. -/
inductive Wake where
  | idle
  | intr
  | nmi
deriving DecidableEq, Repr

/-- The instruction `hlt` leaves the halted state when an enabled interrupt or a
non-maskable interrupt arrives; the handler then returns to the instruction
following `hlt`. The value tells whether `hlt` completes under the event. -/
def hltResumes (s : CPU) (w : Wake) : Bool :=
  match w with
  | .idle => false
  | .intr => s.IF
  | .nmi => true

/-- The routine `hlt()`: the state in which execution continues with the
instruction after `hlt` when the event resumes the processor, `none` while the
processor stays halted. -/
def hlt (s : CPU) (w : Wake) : Option CPU :=
  if hltResumes s w then some s else none

/-- Control points of the routine `stop()`: before `cli()`, at `hlt()`, and
past `hlt()`, the point the source marks `__builtin_unreachable()`. -/
inductive StopPc where
  | atCli
  | atHlt
  | pastHlt
deriving DecidableEq, Repr

/-- One step of `stop()`: `cli()` runs and control moves to `hlt()`; `hlt()`
keeps the processor halted until an event resumes it, after which control is
past `hlt()`. The body has no branch back to an earlier point. -/
def stopStep (c : CPU × StopPc) (w : Wake) : CPU × StopPc :=
  match c.2 with
  | .atCli => (cli c.1, .atHlt)
  | .atHlt =>
    match hlt c.1 w with
    | some s => (s, .pastHlt)
    | none => (c.1, .atHlt)
  | .pastHlt => (c.1, .pastHlt)

/-- The routine `stop()` entered in state `s`, run one step per event of `ws`:
the processor state and the control point reached. -/
def stop (s : CPU) (ws : List Wake) : CPU × StopPc :=
  ws.foldl stopStep (s, .atCli)

/-! ## Port I/O -/

/-- The I/O address space as seen by the `out` and `in` instructions at the
three access widths; `σ` is the state of the devices behind the ports. Writes
take the port and the value, reads take the port and give the value read
together with the device state after the read. -/
structure PortSpace (σ : Type) where
  out8 : σ → Nat → Nat → σ
  in8 : σ → Nat → Nat × σ
  out16 : σ → Nat → Nat → σ
  in16 : σ → Nat → Nat × σ
  out32 : σ → Nat → Nat → σ
  in32 : σ → Nat → Nat × σ

/-- The routine `outb(port, data)`. -/
def outb {σ : Type} (bus : PortSpace σ) (s : σ) (port data : Nat) : σ :=
  bus.out8 s (u16 port) (u8 data)

/-- The routine `inb(port)`. -/
def inb {σ : Type} (bus : PortSpace σ) (s : σ) (port : Nat) : Nat × σ :=
  (u8 (bus.in8 s (u16 port)).1, (bus.in8 s (u16 port)).2)

/-- The routine `outw(port, data)`. -/
def outw {σ : Type} (bus : PortSpace σ) (s : σ) (port data : Nat) : σ :=
  bus.out16 s (u16 port) (u16 data)

/-- The routine `inw(port)`. -/
def inw {σ : Type} (bus : PortSpace σ) (s : σ) (port : Nat) : Nat × σ :=
  (u16 (bus.in16 s (u16 port)).1, (bus.in16 s (u16 port)).2)

/-- The routine `outl(port, data)`. -/
def outl {σ : Type} (bus : PortSpace σ) (s : σ) (port data : Nat) : σ :=
  bus.out32 s (u16 port) (u32 data)

/-- The routine `inl(port)`. -/
def inl {σ : Type} (bus : PortSpace σ) (s : σ) (port : Nat) : Nat × σ :=
  (u32 (bus.in32 s (u16 port)).1, (bus.in32 s (u16 port)).2)

/-- Port `p` is a loopback port: at each width, a read of `p` gives the value
last written to `p` at that width. -/
def Loopback {σ : Type} (bus : PortSpace σ) (p : Nat) : Prop :=
  (∀ s v, v < 2 ^ 8 → (bus.in8 (bus.out8 s p v) p).1 = v) ∧
  (∀ s v, v < 2 ^ 16 → (bus.in16 (bus.out16 s p v) p).1 = v) ∧
  (∀ s v, v < 2 ^ 32 → (bus.in32 (bus.out32 s p v) p).1 = v)

/-- Device state of `latchPorts`: for each width, the port and value of the last
write. -/
structure Latches where
  last8 : Nat × Nat
  last16 : Nat × Nat
  last32 : Nat × Nat
deriving DecidableEq, Repr

/-- An emulated port space in which every port latches the last value written
at each width; a read of another port gives all ones. -/
def latchPorts : PortSpace Latches where
  out8 s p v := { s with last8 := (p, v) }
  in8 s p := (if s.last8.1 = p then s.last8.2 else 0xff, s)
  out16 s p v := { s with last16 := (p, v) }
  in16 s p := (if s.last16.1 = p then s.last16.2 else 0xffff, s)
  out32 s p v := { s with last32 := (p, v) }
  in32 s p := (if s.last32.1 = p then s.last32.2 else 0xffffffff, s)

/-! ## Byte-level lemmas -/

theorem getD_set (mem : List Nat) (i j c : Nat) :
    (mem.set i c).getD j 0 = if i = j ∧ i < mem.length then c else mem.getD j 0 := by
  simp only [List.getD_eq_getElem?_getD, List.getElem?_set]
  by_cases h : i = j
  · subst h
    by_cases hl : i < mem.length
    · simp [hl]
    · have hn : mem[i]? = none := List.getElem?_eq_none (by omega)
      simp [hl, hn]
  · simp [h]

theorem length_store32 (mem : List Nat) (off v : Nat) :
    (store32 mem off v).length = mem.length := by
  simp [store32]

theorem getD_store32 (mem : List Nat) (off v j : Nat) (h : off + 3 < mem.length) :
    (store32 mem off v).getD j 0 =
      if off ≤ j ∧ j < off + 4 then leByte v (j - off) else mem.getD j 0 := by
  unfold store32
  simp only [getD_set, List.length_set]
  by_cases h0 : j = off
  · subst h0; simp; omega
  by_cases h1 : j = off + 1
  · subst h1; simp; omega
  by_cases h2 : j = off + 2
  · subst h2; simp; omega
  by_cases h3 : j = off + 3
  · subst h3; simp; omega
  · have e0 : ¬ (off = j) := fun e => h0 e.symm
    have e1 : ¬ (off + 1 = j) := fun e => h1 e.symm
    have e2 : ¬ (off + 2 = j) := fun e => h2 e.symm
    have e3 : ¬ (off + 3 = j) := fun e => h3 e.symm
    have e4 : ¬ (off ≤ j ∧ j < off + 4) := by omega
    simp [e0, e1, e2, e3, e4]

theorem le32_sum (v : Nat) (h : v < 2 ^ 32) :
    leByte v 0 + 256 * leByte v 1 + 256 ^ 2 * leByte v 2 + 256 ^ 3 * leByte v 3 = v := by
  unfold leByte
  norm_num
  omega

theorem leByte_u32 (v k : Nat) (hk : k < 4) : leByte (u32 v) k = leByte v k := by
  unfold leByte u32
  have hk4 : k = 0 ∨ k = 1 ∨ k = 2 ∨ k = 3 := by omega
  rcases hk4 with h | h | h | h <;> subst h <;> norm_num <;> omega

theorem u32_of_lt (v : Nat) (h : v < 2 ^ 32) : u32 v = v := by
  unfold u32
  exact Nat.mod_eq_of_lt h

theorem take_drop_eq_of_getD (l bs : List Nat) (off : Nat) (hlen : off + bs.length ≤ l.length)
    (h : ∀ k, k < bs.length → l.getD (off + k) 0 = bs.getD k 0) :
    (l.drop off).take bs.length = bs := by
  apply List.ext_getElem
  · simp only [List.length_take, List.length_drop]; omega
  · intro n h1 h2
    have hk := h n h2
    have hl : off + n < l.length := by omega
    simp only [List.getD_eq_getElem?_getD, List.getElem?_eq_getElem hl,
      List.getElem?_eq_getElem h2, Option.getD_some] at hk
    simp only [List.getElem_take, List.getElem_drop]
    exact hk

/-! ## What `cpuid` leaves in the buffer -/

theorem cpuid_bytes_eq (insn : Nat → CpuidOut) (function : Nat) (result : cpuid_result) :
    (cpuid insn function result).bytes =
      (store32 (store32 (store32 (store32 result.bytes off_eax
        (u32 (u32 (insn (u32 function)).eax)))
        off_ebx (u32 (u32 (insn (u32 function)).ebx)))
        off_ecx (u32 (u32 (if u32 function = 0 then (insn (u32 function)).edx
          else (insn (u32 function)).ecx))))
        off_edx (u32 (u32 (if u32 function = 0 then (insn (u32 function)).ecx
          else (insn (u32 function)).edx)))).set 32 0 := by
  unfold cpuid
  by_cases h : u32 function = 0 <;>
    simp [h, cpuid_result.set_eax, cpuid_result.set_ebx, cpuid_result.set_ecx,
      cpuid_result.set_edx, cpuid_result.set_byte, u8]

theorem cpuid_length (insn : Nat → CpuidOut) (function : Nat) (result : cpuid_result) :
    (cpuid insn function result).bytes.length = result.bytes.length := by
  rw [cpuid_bytes_eq]
  simp only [List.length_set, length_store32]

theorem cpuid_byte (insn : Nat → CpuidOut) (function : Nat) (result : cpuid_result)
    (hlen : cpuid_result_size ≤ result.bytes.length) (j : Nat) :
    (cpuid insn function result).byte j =
      if j < 4 then leByte (u32 (insn (u32 function)).eax) j
      else if j < 8 then leByte (u32 (insn (u32 function)).ebx) (j - 4)
      else if j < 12 then
        leByte (u32 (if u32 function = 0 then (insn (u32 function)).edx
          else (insn (u32 function)).ecx)) (j - 8)
      else if j < 16 then
        leByte (u32 (if u32 function = 0 then (insn (u32 function)).ecx
          else (insn (u32 function)).edx)) (j - 12)
      else if j = 32 then 0
      else result.byte j := by
  unfold cpuid_result_size at hlen
  have u32_idem : ∀ v, u32 (u32 v) = u32 v := by intro v; simp [u32]
  rw [cpuid_result.byte, cpuid_bytes_eq, getD_set]
  simp only [length_store32, u32_idem]
  rw [getD_store32 _ _ _ _ (by simp only [length_store32, off_edx]; omega),
    getD_store32 _ _ _ _ (by simp only [length_store32, off_ecx]; omega),
    getD_store32 _ _ _ _ (by simp only [length_store32, off_ebx]; omega),
    getD_store32 _ _ _ _ (by simp only [off_eax]; omega)]
  simp only [off_eax, off_ebx, off_ecx, off_edx, cpuid_result.byte]
  split_ifs <;> first | rfl | omega

theorem cpuid_fields (insn : Nat → CpuidOut) (function : Nat) (result : cpuid_result)
    (hlen : cpuid_result_size ≤ result.bytes.length) :
    (cpuid insn function result).regs_eax = u32 (insn (u32 function)).eax ∧
    (cpuid insn function result).regs_ebx = u32 (insn (u32 function)).ebx ∧
    (cpuid insn function result).regs_ecx =
      u32 (if u32 function = 0 then (insn (u32 function)).edx else (insn (u32 function)).ecx) ∧
    (cpuid insn function result).regs_edx =
      u32 (if u32 function = 0 then (insn (u32 function)).ecx else (insn (u32 function)).edx) := by
  have hb := cpuid_byte insn function result hlen
  simp only [cpuid_result.byte] at hb
  have hlt32 : ∀ v, u32 v < 2 ^ 32 := fun v => Nat.mod_lt _ (by norm_num)
  refine ⟨?_, ?_, ?_, ?_⟩
  · simp only [cpuid_result.regs_eax, load32, off_eax, hb]
    simpa using le32_sum _ (hlt32 _)
  · simp only [cpuid_result.regs_ebx, load32, off_ebx, hb]
    simpa using le32_sum _ (hlt32 _)
  · simp only [cpuid_result.regs_ecx, load32, off_ecx, hb]
    simpa using le32_sum _ (hlt32 _)
  · simp only [cpuid_result.regs_edx, load32, off_edx, hb]
    simpa using le32_sum _ (hlt32 _)

/-! ## CPUID: field order -/

/-- C1: for leaf 0, whatever 32-bit values the instruction leaves in its four
output registers, after `cpuid(0, result)` the field `regs.ecx` holds the raw
`edx` and the field `regs.edx` holds the raw `ecx`. -/
theorem cpuid_leaf0_swaps_ecx_edx (insn : Nat → CpuidOut) (result : cpuid_result)
    (hlen : cpuid_result_size ≤ result.bytes.length) (hwf : (insn 0).wf) :
    (cpuid insn 0 result).regs_ecx = (insn 0).edx ∧
    (cpuid insn 0 result).regs_edx = (insn 0).ecx := by
  obtain ⟨_, _, hc, hd⟩ := hwf
  have h := cpuid_fields insn 0 result hlen
  have h0 : u32 0 = 0 := rfl
  simp only [h0, if_true] at h
  rw [h.2.2.1, h.2.2.2, u32_of_lt _ hc, u32_of_lt _ hd]
  exact ⟨rfl, rfl⟩

theorem cpuid_leaf0_swaps_ecx_edx_witness :
    cpuid_result_size ≤ (filled 170).bytes.length ∧ (genuineIntel 0).wf ∧
    (cpuid genuineIntel 0 (filled 170)).regs_ecx = 0x49656e69 ∧
    (cpuid genuineIntel 0 (filled 170)).regs_edx = 0x6c65746e :=
  ⟨by decide, by decide,
    cpuid_leaf0_swaps_ecx_edx genuineIntel (filled 170) (by decide) (by decide)⟩

/-- C2: for every leaf other than 0 (a `uint32_t` value), whatever 32-bit values
the instruction leaves in its four output registers, after
`cpuid(function, result)` the four fields hold the raw registers in order. -/
theorem cpuid_other_leaves_in_order (insn : Nat → CpuidOut) (function : Nat)
    (result : cpuid_result) (hlen : cpuid_result_size ≤ result.bytes.length)
    (hf : function < 2 ^ 32) (hne : function ≠ 0) (hwf : (insn function).wf) :
    (cpuid insn function result).regs_eax = (insn function).eax ∧
    (cpuid insn function result).regs_ebx = (insn function).ebx ∧
    (cpuid insn function result).regs_ecx = (insn function).ecx ∧
    (cpuid insn function result).regs_edx = (insn function).edx := by
  obtain ⟨ha, hb, hc, hd⟩ := hwf
  have h := cpuid_fields insn function result hlen
  have hfn : u32 function = function := u32_of_lt _ hf
  simp only [hfn, hne, if_false] at h
  rw [h.1, h.2.1, h.2.2.1, h.2.2.2, u32_of_lt _ ha, u32_of_lt _ hb, u32_of_lt _ hc,
    u32_of_lt _ hd]
  exact ⟨rfl, rfl, rfl, rfl⟩

theorem cpuid_other_leaves_in_order_witness :
    cpuid_result_size ≤ (filled 170).bytes.length ∧ 1 < 2 ^ 32 ∧ 1 ≠ 0 ∧
    (genuineIntel 1).wf ∧
    (cpuid genuineIntel 1 (filled 170)).regs_eax = 0x000306a9 ∧
    (cpuid genuineIntel 1 (filled 170)).regs_ebx = 0x00100800 ∧
    (cpuid genuineIntel 1 (filled 170)).regs_ecx = 0x7fbae3ff ∧
    (cpuid genuineIntel 1 (filled 170)).regs_edx = 0xbfebfbff :=
  ⟨by decide, by decide, by decide, by decide,
    cpuid_other_leaves_in_order genuineIntel 1 (filled 170) (by decide) (by decide)
      (by decide) (by decide)⟩

/-! ## CPUID: the byte view -/

/-- C3: for every leaf, every raw output and every prior content of a result
buffer of at least 33 bytes, after `cpuid` the byte at index 32 is zero. -/
theorem cpuid_byte32_zero (insn : Nat → CpuidOut) (function : Nat) (result : cpuid_result)
    (hlen : cpuid_result_size ≤ result.bytes.length) :
    (cpuid insn function result).byte 32 = 0 := by
  rw [cpuid_byte insn function result hlen 32]
  simp

theorem cpuid_byte32_zero_witness :
    cpuid_result_size ≤ (filled 170).bytes.length ∧
    (cpuid genuineIntel 7 (filled 170)).byte 32 = 0 :=
  ⟨by decide, cpuid_byte32_zero genuineIntel 7 (filled 170) (by decide)⟩

/-- C4, as stated, fails: two calls of `cpuid(0, result)` that write the same
four field values leave different bytes at index 16, each the byte the buffer
held there before the call. -/
theorem cpuid_byte16_keeps_prior_content :
    (cpuid genuineIntel 0 (filled 170)).byte 16 = 170 ∧
    (cpuid genuineIntel 0 (filled 85)).byte 16 = 85 ∧
    (cpuid genuineIntel 0 (filled 170)).regs_eax = (cpuid genuineIntel 0 (filled 85)).regs_eax ∧
    (cpuid genuineIntel 0 (filled 170)).regs_ebx = (cpuid genuineIntel 0 (filled 85)).regs_ebx ∧
    (cpuid genuineIntel 0 (filled 170)).regs_ecx = (cpuid genuineIntel 0 (filled 85)).regs_ecx ∧
    (cpuid genuineIntel 0 (filled 170)).regs_edx = (cpuid genuineIntel 0 (filled 85)).regs_edx := by
  decide

/-- C4, amended: the four 32-bit fields occupy exactly the 16 bytes at indices
0..15 of the byte view. After any call these 16 bytes are the little-endian
bytes of the four field values written by the call and do not depend on the
prior content of the buffer; every byte at an index from 16 to 31 keeps its
prior content; the byte at index 32 is zero. -/
theorem cpuid_fields_occupy_16_bytes (insn : Nat → CpuidOut) (function : Nat)
    (result other : cpuid_result) (j : Nat)
    (hlen : cpuid_result_size ≤ result.bytes.length)
    (hother : cpuid_result_size ≤ other.bytes.length) (hlo : 16 ≤ j) (hhi : j < 32) :
    (cpuid insn function result).bytes.take 16 =
      le32 (cpuid insn function result).regs_eax ++ le32 (cpuid insn function result).regs_ebx ++
        le32 (cpuid insn function result).regs_ecx ++ le32 (cpuid insn function result).regs_edx ∧
    (cpuid insn function other).bytes.take 16 = (cpuid insn function result).bytes.take 16 ∧
    (cpuid insn function result).byte j = result.byte j ∧
    (cpuid insn function result).byte 32 = 0 := by
  have key : ∀ r : cpuid_result, cpuid_result_size ≤ r.bytes.length →
      (cpuid insn function r).bytes.take 16 =
        le32 (u32 (insn (u32 function)).eax) ++ le32 (u32 (insn (u32 function)).ebx) ++
          le32 (u32 (if u32 function = 0 then (insn (u32 function)).edx
            else (insn (u32 function)).ecx)) ++
          le32 (u32 (if u32 function = 0 then (insn (u32 function)).ecx
            else (insn (u32 function)).edx)) := by
    intro r hr
    have hl : 0 + 16 ≤ (cpuid insn function r).bytes.length := by
      rw [cpuid_length]; unfold cpuid_result_size at hr; omega
    have h := take_drop_eq_of_getD (cpuid insn function r).bytes
      (le32 (u32 (insn (u32 function)).eax) ++ le32 (u32 (insn (u32 function)).ebx) ++
          le32 (u32 (if u32 function = 0 then (insn (u32 function)).edx
            else (insn (u32 function)).ecx)) ++
          le32 (u32 (if u32 function = 0 then (insn (u32 function)).ecx
            else (insn (u32 function)).edx))) 0 hl ?_
    · simpa [le32] using h
    · intro k hk
      have hk16 : k < 16 := by simpa [le32] using hk
      have hb := cpuid_byte insn function r hr (0 + k)
      simp only [cpuid_result.byte] at hb
      rw [hb]
      interval_cases k <;> simp [le32]
  obtain ⟨ha, hb, hc, hd⟩ := cpuid_fields insn function result hlen
  refine ⟨?_, ?_, ?_, ?_⟩
  · rw [ha, hb, hc, hd]
    exact key result hlen
  · rw [key other hother, key result hlen]
  · rw [cpuid_byte insn function result hlen j]
    have h1 : ¬ j < 4 := by omega
    have h2 : ¬ j < 8 := by omega
    have h3 : ¬ j < 12 := by omega
    have h4 : ¬ j < 16 := by omega
    have h5 : ¬ j = 32 := by omega
    simp only [h1, h2, h3, h4, h5, if_false]
  · rw [cpuid_byte insn function result hlen 32]
    simp

theorem cpuid_fields_occupy_16_bytes_witness :
    cpuid_result_size ≤ (filled 170).bytes.length ∧
    cpuid_result_size ≤ (filled 85).bytes.length ∧ 16 ≤ 20 ∧ 20 < 32 ∧
    (cpuid genuineIntel 0 (filled 170)).bytes.take 16 =
      le32 (cpuid genuineIntel 0 (filled 170)).regs_eax ++
        le32 (cpuid genuineIntel 0 (filled 170)).regs_ebx ++
        le32 (cpuid genuineIntel 0 (filled 170)).regs_ecx ++
        le32 (cpuid genuineIntel 0 (filled 170)).regs_edx ∧
    (cpuid genuineIntel 0 (filled 85)).bytes.take 16 =
      (cpuid genuineIntel 0 (filled 170)).bytes.take 16 ∧
    (cpuid genuineIntel 0 (filled 170)).byte 20 = (filled 170).byte 20 ∧
    (cpuid genuineIntel 0 (filled 170)).byte 32 = 0 :=
  ⟨by decide, by decide, by decide, by decide,
    cpuid_fields_occupy_16_bytes genuineIntel 0 (filled 170) (filled 85) 20 (by decide)
      (by decide) (by decide) (by decide)⟩

/-- C5: for leaf 0 and every raw output, after `cpuid(0, result)` the 12 bytes
at indices 4..15 of the byte view are the little-endian bytes of raw `ebx`, then
of raw `edx`, then of raw `ecx`. -/
theorem cpuid_leaf0_vendor_bytes (insn : Nat → CpuidOut) (result : cpuid_result)
    (hlen : cpuid_result_size ≤ result.bytes.length) :
    ((cpuid insn 0 result).bytes.drop 4).take 12 =
      le32 (insn 0).ebx ++ le32 (insn 0).edx ++ le32 (insn 0).ecx := by
  have hl : 4 + 12 ≤ (cpuid insn 0 result).bytes.length := by
    rw [cpuid_length]; unfold cpuid_result_size at hlen; omega
  have h := take_drop_eq_of_getD (cpuid insn 0 result).bytes
    (le32 (insn 0).ebx ++ le32 (insn 0).edx ++ le32 (insn 0).ecx) 4 hl ?_
  · simpa [le32] using h
  · intro k hk
    have hk12 : k < 12 := by simpa [le32] using hk
    have hb := cpuid_byte insn 0 result hlen (4 + k)
    have h0 : u32 0 = 0 := rfl
    simp only [cpuid_result.byte, h0, if_true] at hb
    rw [hb]
    interval_cases k <;> simp [le32, leByte_u32]

theorem cpuid_leaf0_vendor_bytes_witness :
    cpuid_result_size ≤ (filled 170).bytes.length ∧
    ((cpuid genuineIntel 0 (filled 170)).bytes.drop 4).take 12 =
      [0x47, 0x65, 0x6e, 0x75, 0x69, 0x6e, 0x65, 0x49, 0x6e, 0x74, 0x65, 0x6c] :=
  ⟨by decide, cpuid_leaf0_vendor_bytes genuineIntel (filled 170) (by decide)⟩

/-! ## Halting -/

theorem stop_halted_stays (c : CPU) (ws : List Wake) (hIF : c.IF = false)
    (hws : Wake.nmi ∉ ws) : ws.foldl stopStep (c, StopPc.atHlt) = (c, StopPc.atHlt) := by
  induction ws with
  | nil => rfl
  | cons w ws ih =>
    have hw : w ≠ Wake.nmi := fun e => hws (by simp [e])
    have hrest : Wake.nmi ∉ ws := fun e => hws (by simp [e])
    have hstep : stopStep (c, StopPc.atHlt) w = (c, StopPc.atHlt) := by
      cases w <;> simp_all [stopStep, hlt, hltResumes]
    rw [List.foldl_cons, hstep]
    exact ih hrest

/-- With interrupts disabled by `cli()`, as long as no non-maskable interrupt
arrives control never gets past `hlt()`. -/
theorem stop_stays_without_nmi (s : CPU) (ws : List Wake) (hws : Wake.nmi ∉ ws) :
    (stop s ws).2 ≠ StopPc.pastHlt := by
  cases ws with
  | nil => simp [stop]
  | cons w ws =>
    have hrest : Wake.nmi ∉ ws := fun e => hws (by simp [e])
    have h1 : stopStep (s, StopPc.atCli) w = (cli s, StopPc.atHlt) := rfl
    rw [stop, List.foldl_cons, h1, stop_halted_stays (cli s) ws rfl hrest]
    simp

/-- C6 fails on the code: `stop()` has one `hlt` and no loop, so from every
processor state a non-maskable interrupt that arrives while the processor is
halted resumes it and control gets past `hlt()`, to the point the source marks
unreachable. -/
theorem stop_leaves_hlt_on_nmi (s : CPU) :
    (stop s [Wake.idle, Wake.nmi]).2 = StopPc.pastHlt := by
  simp [stop, stopStep, hlt, hltResumes]

/-! ## Interrupt flag -/

/-- C7, as stated, fails: entered with the interrupt flag clear, `cli()` followed
by `sti()` leaves the flag set. -/
theorem cli_sti_changes_clear_flag :
    (sti (cli ⟨false, 0, 0⟩)).IF ≠ (⟨false, 0, 0⟩ : CPU).IF := by
  decide

/-- C7, amended: for every initial state, `cli()` followed by `sti()` leaves the
interrupt flag set; that is the state the flag had before the pair exactly when
the flag was set before the pair. -/
theorem cli_sti_leaves_flag_set (s : CPU) :
    (sti (cli s)).IF = true ∧ ((sti (cli s)).IF = s.IF ↔ s.IF = true) := by
  cases h : s.IF <;> simp [sti, cli, h]

/-! ## Control register CR3 -/

/-- C8, as stated, fails: the 64-bit value with all bits set has reserved bits
set, so `setCR3` ends in a general-protection exception, CR3 keeps the root it
held, and that root is not the value passed. -/
theorem setCR3_all_ones_faults :
    setCR3 twoRoots ⟨true, 0, 0x1000⟩ 0xffffffffffffffff =
      Outcome.fault Fault.generalProtection ⟨true, 0, 0x1000⟩ ∧
    (getCR3 ⟨true, 0, 0x1000⟩).1 ≠ 0xffffffffffffffff := by
  decide

/-- C8, amended: for every 64-bit value `x` that is a valid page-table root,
`setCR3(x)` completes with CR3 holding `x`, the `getCR3()` that follows returns
exactly `x`, and `getCR3` leaves the processor state, CR3 included, as it found
it. -/
theorem setCR3_getCR3_valid_root (env : Paging) (s : CPU) (x : Nat) (hx : x < 2 ^ 64)
    (hvalid : validRoot env x = true) :
    setCR3 env s x = Outcome.done { s with cr3 := x } ∧
    (getCR3 { s with cr3 := x }).1 = x ∧
    (getCR3 { s with cr3 := x }).2 = { s with cr3 := x } ∧
    (getCR3 s).2.cr3 = s.cr3 := by
  have hmod : u64 x = x := Nat.mod_eq_of_lt hx
  unfold validRoot at hvalid
  rw [Bool.and_eq_true, decide_eq_true_eq] at hvalid
  obtain ⟨hres, hmap⟩ := hvalid
  refine ⟨?_, ?_, rfl, rfl⟩
  · simp only [setCR3, hmod, hres, hmap, if_true]
  · show u64 x = x
    exact hmod

theorem setCR3_getCR3_valid_root_witness :
    0x2000 < 2 ^ 64 ∧ validRoot twoRoots 0x2000 = true ∧
    setCR3 twoRoots ⟨true, 0, 0x1000⟩ 0x2000 = Outcome.done ⟨true, 0, 0x2000⟩ ∧
    (getCR3 ⟨true, 0, 0x2000⟩).1 = 0x2000 ∧
    (getCR3 ⟨true, 0, 0x2000⟩).2 = ⟨true, 0, 0x2000⟩ ∧
    (getCR3 ⟨true, 0, 0x1000⟩).2.cr3 = 0x1000 :=
  ⟨by decide, by decide,
    setCR3_getCR3_valid_root twoRoots ⟨true, 0, 0x1000⟩ 0x2000 (by decide) (by decide)⟩

/-! ## Port I/O -/

theorem latchPorts_loopback (p : Nat) : Loopback latchPorts p := by
  refine ⟨?_, ?_, ?_⟩ <;> intro s v _ <;> simp [latchPorts]

/-- C9: on a loopback port, for every 16-bit port number and every value of the
access width, `outb` then `inb` returns the byte written, `outw` then `inw` the
word written and `outl` then `inl` the double word written. -/
theorem out_in_loopback {σ : Type} (bus : PortSpace σ) (s : σ) (port v8 v16 v32 : Nat)
    (hport : port < 2 ^ 16) (hloop : Loopback bus port) (h8 : v8 < 2 ^ 8)
    (h16 : v16 < 2 ^ 16) (h32 : v32 < 2 ^ 32) :
    (inb bus (outb bus s port v8) port).1 = v8 ∧
    (inw bus (outw bus s port v16) port).1 = v16 ∧
    (inl bus (outl bus s port v32) port).1 = v32 := by
  obtain ⟨l8, l16, l32⟩ := hloop
  have hp : u16 port = port := Nat.mod_eq_of_lt hport
  have e8 : u8 v8 = v8 := Nat.mod_eq_of_lt h8
  have e16 : u16 v16 = v16 := Nat.mod_eq_of_lt h16
  have e32 : u32 v32 = v32 := Nat.mod_eq_of_lt h32
  refine ⟨?_, ?_, ?_⟩
  · simp only [inb, outb, hp, e8, l8 s v8 h8]
  · simp only [inw, outw, hp, e16, l16 s v16 h16]
  · simp only [inl, outl, hp, e32, l32 s v32 h32]

theorem out_in_loopback_witness :
    0x80 < 2 ^ 16 ∧ Loopback latchPorts 0x80 ∧ 0xa5 < 2 ^ 8 ∧ 0xbeef < 2 ^ 16 ∧
    0xdeadbeef < 2 ^ 32 ∧
    (inb latchPorts (outb latchPorts ⟨(0, 0), (0, 0), (0, 0)⟩ 0x80 0xa5) 0x80).1 = 0xa5 ∧
    (inw latchPorts (outw latchPorts ⟨(0, 0), (0, 0), (0, 0)⟩ 0x80 0xbeef) 0x80).1 = 0xbeef ∧
    (inl latchPorts (outl latchPorts ⟨(0, 0), (0, 0), (0, 0)⟩ 0x80 0xdeadbeef) 0x80).1
      = 0xdeadbeef :=
  ⟨by decide, latchPorts_loopback 0x80, by decide, by decide, by decide,
    out_in_loopback latchPorts ⟨(0, 0), (0, 0), (0, 0)⟩ 0x80 0xa5 0xbeef 0xdeadbeef (by decide)
      (latchPorts_loopback 0x80) (by decide) (by decide) (by decide)⟩

end X86Funcs
